import Mathlib

/-!
Verification of the zipper command-line tool (src/zipper.py) against its
specification. The embedding models the file-discovery walk, the archive
writing loop, the statistics computation and the CLI glue as pure Lean
functions; filesystem trees are explicit inductive values, byte counts are
naturals, and the exact fractional values the script computes are rationals
(every division the script performs is by a power of two, which binary
floating point evaluates exactly for the sizes that occur in practice).
-/

namespace Zipper

/-- A directory of the source tree: the files directly inside it as
(basename, size-in-bytes) pairs and its subdirectories as
(basename, contents) pairs, each list in the order the operating system
enumerates the entries (the `dirs` and `files` lists that os.walk yields). -/
inductive Dir : Type where
  | node : List (String × Nat) → List (String × Dir) → Dir

/-- The default exclusion patterns of get_excluded_patterns
(src/zipper.py lines 89-95). Python keeps them in a set and only ever tests
membership, so a list with exact string-equality membership is an
equivalent model. -/
def defaultExcluded : List String :=
  [".git", ".github", "node_modules", ".DS_Store", "__MACOSX",
   ".gitignore", ".env", ".vscode", ".idea", ".zip", "Thumbs.db",
   "desktop.ini", "package-lock.json", "yarn.lock"]

mutual

/-- The discovery loop (src/zipper.py lines 115-123). os.walk (top-down)
yields the current directory's files first and then descends into the
surviving subdirectories in order. `pre` is the component path of the
directory being walked (the walk root included); every non-excluded file is
appended as its full component path together with its size. A file is kept
exactly when its basename is not in the exclusion list, by exact string
equality. -/
def Dir.discover (excl : List String) (pre : List String) :
    Dir → List (List String × Nat)
  | .node files subdirs =>
      (files.filter (fun f => decide (f.1 ∉ excl))).map
          (fun f => (pre ++ [f.1], f.2))
        ++ discoverSubs excl pre subdirs

/-- Descends into the subdirectory list in order, skipping excluded
basenames: the in-place filter `dirs[:] = [d for d in dirs if d not in
exclude_patterns]` (src/zipper.py line 116) prunes those subtrees before
os.walk visits them. -/
def discoverSubs (excl : List String) (pre : List String) :
    List (String × Dir) → List (List String × Nat)
  | [] => []
  | sub :: rest =>
      (if sub.1 ∈ excl then [] else Dir.discover excl (pre ++ [sub.1]) sub.2)
        ++ discoverSubs excl pre rest

end

/-- What the source path given to os.walk resolves to: an actual directory,
a plain file, or nothing at all. -/
inductive PathTarget : Type where
  | dir : Dir → PathTarget
  | file : Nat → PathTarget
  | missing : PathTarget

/-- What the discovery phase produces for a given source path. os.walk is
called with the default onerror=None, so a missing path or a path that is
not a directory yields no triples at all and the loop body never runs:
discovery returns the empty list in those cases rather than raising. -/
def walkDiscover (excl : List String) (src : List String) :
    PathTarget → List (List String × Nat)
  | .dir d => d.discover excl src
  | .file _ => []
  | .missing => []

/-- path.relative_to(source_dir) (src/zipper.py line 146): strip the source
root's leading components from a discovered file's component path. -/
def relTo (src : List String) (p : List String) : List String :=
  p.drop src.length

/-- The archive-writing loop (src/zipper.py lines 144-147): one entry per
discovered file, named by its path relative to the source root, written in
discovery order. -/
def writeEntries (src : List String) (fps : List (List String × Nat)) :
    List (List String) :=
  fps.map (fun e => relTo src e.1)

/-- The running total_size accumulated during discovery
(src/zipper.py line 121): the sum of the discovered files' stat sizes. -/
def totalSize (fps : List (List String × Nat)) : Nat :=
  (fps.map Prod.snd).sum

/-- The compression-ratio expression `(1 - zip_size/total_size)*100`
(src/zipper.py line 161). Python raises ZeroDivisionError when total_size
is zero (modelled as `none`); that exception is swallowed by the generic
handler on line 169, which exits with code 1. -/
def compressionRatio (total zipSize : Nat) : Option ℚ :=
  if total = 0 then none
  else some ((1 - (zipSize : ℚ) / (total : ℚ)) * 100)

/-- Archive filename construction (src/zipper.py lines 130-137).
`base_name = custom_name or Path(source_dir).name`: Python's `or` falls
back to the source basename when custom_name is None or the empty string.
The timestamp string is an input of the model (the script renders the
current time as %Y%m%d_%H%M%S). -/
def zipFilename (customName : Option String) (srcBasename : String)
    (timestamp : String) (useTimestamp : Bool) : String :=
  let base :=
    match customName with
    | some s => if s = "" then srcBasename else s
    | none => srcBasename
  if useTimestamp then base ++ "_" ++ timestamp ++ ".zip"
  else base ++ ".zip"

/-- How a run of create_zip can end: the early sys.exit(1) when no files
were discovered (line 127, before any archive is opened); the caught
ZeroDivisionError while computing statistics after the archive was written
(lines 161 and 169-171); or full success carrying the archive name, the
entry names written, and the computed ratio. -/
inductive Outcome : Type where
  | emptyExit : Outcome
  | statsError : String → Outcome
  | success : String → List (List String) → ℚ → Outcome
  deriving DecidableEq

/-- create_zip (src/zipper.py lines 104-171). The exclusion set is the
default set unioned with the caller's patterns; discovery runs first; an
empty discovery exits before the archive filename is even built; otherwise
the archive is written entry by entry and the statistics are computed.
`zipSize` is the on-disk size of the finished archive, an input of the
model since it depends on the deflate encoder. -/
def create_zip (srcTarget : PathTarget) (src : List String)
    (srcBasename : String) (customName : Option String)
    (exclude : List String) (useTimestamp : Bool) (timestamp : String)
    (zipSize : Nat) : Outcome :=
  let excl := defaultExcluded ++ exclude
  let fps := walkDiscover excl src srcTarget
  if fps = [] then .emptyExit
  else
    let name := zipFilename customName srcBasename timestamp useTimestamp
    match compressionRatio (totalSize fps) zipSize with
    | none => .statsError name
    | some r => .success name (writeEntries src fps) r

/-- The process exit code of each outcome: sys.exit(1) on the empty
discovery (line 127), sys.exit(1) from the generic exception handler
(line 171), 0 on success. -/
def outcomeExitCode : Outcome → Nat
  | .emptyExit => 1
  | .statsError _ => 1
  | .success _ _ _ => 0

/-- Whether a destination archive file exists after the run, and under
which name. The empty-discovery exit happens before the archive is opened;
the statistics failure happens after the archive was fully written. -/
def createdArchive : Outcome → Option String
  | .emptyExit => none
  | .statsError n => some n
  | .success n _ _ => some n

/-- How the process ends: main ran to completion (normally or through a
sys.exit inside create_zip), or a KeyboardInterrupt reached the top-level
handler. -/
inductive RunEvent : Type where
  | completed : Outcome → RunEvent
  | interrupted : RunEvent

/-- The top-level guard (src/zipper.py lines 206-211): KeyboardInterrupt is
caught, a cancellation message is printed, and the process exits via
sys.exit(0). -/
def mainExitCode : RunEvent → Nat
  | .completed o => outcomeExitCode o
  | .interrupted => 0

/-- Python's str.split(',') on the character sequence of a string: cut at
every comma, trim nothing, keep empty pieces ("".split(',') is ['']). -/
def splitCommaAux : List Char → List (List Char)
  | [] => [[]]
  | c :: rest =>
      if c = ',' then [] :: splitCommaAux rest
      else
        match splitCommaAux rest with
        | [] => [[c]]
        | p :: ps => (c :: p) :: ps

/-- Python's str.split(',') on a string. -/
def splitComma (s : String) : List String :=
  (splitCommaAux s.data).map String.mk

/-- The inverse of comma splitting: rejoin pieces with a comma between
consecutive pieces, used to state that splitting loses and trims nothing. -/
def joinComma : List (List Char) → List Char
  | [] => []
  | [p] => p
  | p :: q :: ps => p ++ [','] ++ joinComma (q :: ps)

/-- Parsing of the -e flag (src/zipper.py line 202):
`args.exclude.split(',') if args.exclude else []`: the empty string (the
default) contributes no patterns, any other string is split at commas. -/
def parseExclude (s : String) : List String :=
  if s = "" then [] else splitComma s

/-- Round a rational to the nearest integer, ties to even: the rounding
Python's fixed-point formatting applies (all values the script formats are
exactly representable in binary floating point). -/
def roundHalfEven (q : ℚ) : ℤ :=
  let f := ⌊q⌋
  if q - f < 1 / 2 then f
  else if 1 / 2 < q - f then f + 1
  else if f % 2 = 0 then f else f + 1

/-- Left-pad a two-digit fraction field with a zero. -/
def pad2 (m : Nat) : String :=
  if m < 10 then "0" ++ toString m else toString m

/-- Python's f"{x:.2f}" on the non-negative values the script formats:
round 100*x to the nearest integer (ties to even) and print it with two
digits after the point. -/
def format2 (x : ℚ) : String :=
  let c := (roundHalfEven (100 * x)).toNat
  toString (c / 100) ++ "." ++ pad2 (c % 100)

/-- Python's f"{x:.2f} {unit}": the formatted value, a space, the unit. -/
def withUnit (s u : String) : String :=
  s ++ " " ++ u

/-- The inner iterations of the human_size unit loop
(src/zipper.py lines 99-102) after the first: at each unit, return
f"{size_bytes:.2f} {unit}" when the value is below 1024 or the unit is the
last one ('GB'), otherwise divide by 1024 and move to the next unit;
falling off the list returns nothing (Python returns None). -/
def humanLoop : List String → ℚ → Option String
  | [], _ => none
  | u :: rest, x =>
      if x < 1024 ∨ u = "GB" then some (withUnit (format2 x) u)
      else humanLoop rest (x / 1024)

/-- human_size (src/zipper.py lines 97-102). The first iteration of the
loop (unit 'B') is unrolled here because it is the only one that can
format the original integer: a count below 1024 is printed as
f"{size_bytes} B" with no decimals, otherwise the value is divided by 1024
and the loop continues through KB, MB and GB. -/
def human_size (n : Nat) : Option String :=
  if (n : ℚ) < 1024 then some (toString n ++ " B")
  else humanLoop ["KB", "MB", "GB"] ((n : ℚ) / 1024)

/-- A well-formed directory tree: the basenames of the entries directly
inside a directory are pairwise distinct (as in every real filesystem),
recursively in every subdirectory. -/
inductive Dir.wf : Dir → Prop where
  | node : ∀ {files : List (String × Nat)} {subdirs : List (String × Dir)},
      (files.map Prod.fst ++ subdirs.map Prod.fst).Nodup →
      (∀ sub ∈ subdirs, Dir.wf sub.2) →
      Dir.wf (.node files subdirs)

/-! Helper lemmas shared by the claim theorems. -/

mutual

theorem discover_shape (excl pre : List String) (d : Dir) :
    ∀ e ∈ d.discover excl pre, ∃ q, q ≠ [] ∧ (∀ c ∈ q, c ∉ excl) ∧ e.1 = pre ++ q := by
  match d with
  | .node files subdirs =>
    intro e he
    rw [Dir.discover, List.mem_append] at he
    rcases he with hf | hs
    · rcases List.mem_map.mp hf with ⟨f, hfmem, rfl⟩
      rcases List.mem_filter.mp hfmem with ⟨-, hdec⟩
      refine ⟨[f.1], by simp, ?_, rfl⟩
      intro c hc
      rw [List.mem_singleton] at hc
      subst hc
      exact of_decide_eq_true hdec
    · rcases discoverSubs_shape excl pre subdirs e hs with ⟨n, q, -, hnex, -, hq, heq⟩
      refine ⟨n :: q, by simp, ?_, heq⟩
      intro c hc
      rcases List.mem_cons.mp hc with rfl | hc
      · exact hnex
      · exact hq c hc

theorem discoverSubs_shape (excl pre : List String) (l : List (String × Dir)) :
    ∀ e ∈ discoverSubs excl pre l,
      ∃ n q, n ∈ l.map Prod.fst ∧ n ∉ excl ∧ q ≠ [] ∧ (∀ c ∈ q, c ∉ excl) ∧
        e.1 = pre ++ n :: q := by
  match l with
  | [] =>
    intro e he
    rw [discoverSubs] at he
    exact absurd he (List.not_mem_nil e)
  | sub :: rest =>
    intro e he
    rw [discoverSubs, List.mem_append] at he
    rcases he with hb | hr
    · by_cases hex : sub.1 ∈ excl
      · rw [if_pos hex] at hb
        exact absurd hb (List.not_mem_nil e)
      · rw [if_neg hex] at hb
        rcases discover_shape excl (pre ++ [sub.1]) sub.2 e hb with ⟨q, hq0, hq, heq⟩
        exact ⟨sub.1, q, by simp, hex, hq0, hq, by simpa using heq⟩
    · rcases discoverSubs_shape excl pre rest e hr with ⟨n, q, hn, hnex, hq0, hq, heq⟩
      exact ⟨n, q, by simp [hn], hnex, hq0, hq, heq⟩

end

mutual

theorem discover_nodup (excl pre : List String) (d : Dir) (hw : d.wf) :
    ((d.discover excl pre).map Prod.fst).Nodup := by
  match d, hw with
  | .node files subdirs, .node hnd hsub =>
    rw [Dir.discover, List.map_append, List.nodup_append]
    refine ⟨?_, discoverSubs_nodup excl pre subdirs (hnd.of_append_right) hsub, ?_⟩
    · rw [List.map_map]
      have hfn : ((files.filter (fun f => decide (f.1 ∉ excl))).map Prod.fst).Nodup :=
        ((List.filter_sublist files).map Prod.fst).nodup hnd.of_append_left
      have : (Prod.fst ∘ fun f : String × Nat => (pre ++ [f.1], f.2)) =
          (fun n => pre ++ [n]) ∘ Prod.fst := rfl
      rw [this, ← List.map_map]
      refine hfn.map ?_
      intro a b hab
      simpa using List.append_cancel_left hab
    · intro a ha hb
      rw [List.map_map] at ha
      rcases List.mem_map.mp ha with ⟨f, -, rfl⟩
      rcases List.mem_map.mp hb with ⟨e, hemem, heq⟩
      rcases discoverSubs_shape excl pre subdirs e hemem with ⟨n, q, -, -, hq0, -, he1⟩
      rw [he1] at heq
      have := List.append_cancel_left heq
      simp at this
      exact hq0 this.2

theorem discoverSubs_nodup (excl pre : List String) (l : List (String × Dir))
    (hn : (l.map Prod.fst).Nodup) (hw : ∀ s ∈ l, Dir.wf s.2) :
    ((discoverSubs excl pre l).map Prod.fst).Nodup := by
  match l with
  | [] =>
    rw [discoverSubs]
    simp
  | sub :: rest =>
    rw [discoverSubs, List.map_append, List.nodup_append]
    have hrest : ((discoverSubs excl pre rest).map Prod.fst).Nodup :=
      discoverSubs_nodup excl pre rest (by simpa using hn.of_cons)
        (fun s hs => hw s (List.mem_cons_of_mem sub hs))
    by_cases hex : sub.1 ∈ excl
    · rw [if_pos hex]
      exact ⟨by simp, hrest, by simp⟩
    · rw [if_neg hex]
      refine ⟨discover_nodup excl (pre ++ [sub.1]) sub.2 (hw sub (List.mem_cons_self sub rest)),
        hrest, ?_⟩
      intro a ha hb
      rcases List.mem_map.mp ha with ⟨e, hemem, rfl⟩
      rcases discover_shape excl (pre ++ [sub.1]) sub.2 e hemem with ⟨q, -, -, he1⟩
      rcases List.mem_map.mp hb with ⟨e', hemem', heq'⟩
      rcases discoverSubs_shape excl pre rest e' hemem' with ⟨n, q', hnmem, -, -, -, he1'⟩
      rw [he1, he1'] at heq'
      rw [List.append_assoc] at heq'
      have := List.append_cancel_left heq'
      simp at this
      have hhead : sub.1 = n := this.1.symm
      have : sub.1 ∉ rest.map Prod.fst := (List.nodup_cons.mp (by simpa using hn)).1
      exact this (hhead ▸ hnmem)

end

theorem splitCommaAux_ne_nil (cs : List Char) : splitCommaAux cs ≠ [] := by
  rcases cs with _ | ⟨c, rest⟩
  · simp [splitCommaAux]
  · by_cases hc : c = ','
    · simp [splitCommaAux, hc]
    · simp only [splitCommaAux, if_neg hc]
      rcases h : splitCommaAux rest with _ | ⟨p, ps⟩ <;> simp

theorem joinComma_cons (c : Char) (p : List Char) (ps : List (List Char)) :
    joinComma ((c :: p) :: ps) = c :: joinComma (p :: ps) := by
  cases ps <;> simp [joinComma]

theorem splitCommaAux_join (cs : List Char) :
    joinComma (splitCommaAux cs) = cs ∧ ∀ p ∈ splitCommaAux cs, ',' ∉ p := by
  induction cs with
  | nil =>
    refine ⟨rfl, ?_⟩
    intro p hp
    rw [splitCommaAux, List.mem_singleton] at hp
    subst hp
    exact List.not_mem_nil ','
  | cons c rest ih =>
    by_cases hc : c = ','
    · subst hc
      simp only [splitCommaAux, if_pos rfl]
      rcases h : splitCommaAux rest with _ | ⟨p, ps⟩
      · exact absurd h (splitCommaAux_ne_nil rest)
      · rw [h] at ih
        constructor
        · simp only [joinComma]
          simp [ih.1]
        · intro piece hpc
          rcases List.mem_cons.mp hpc with rfl | hmem
          · exact List.not_mem_nil ','
          · exact ih.2 piece hmem
    · simp only [splitCommaAux, if_neg hc]
      rcases h : splitCommaAux rest with _ | ⟨p, ps⟩
      · exact absurd h (splitCommaAux_ne_nil rest)
      · rw [h] at ih
        constructor
        · rw [joinComma_cons, ih.1]
        · intro piece hpc
          rcases List.mem_cons.mp hpc with rfl | hmem
          · intro hin
            rcases List.mem_cons.mp hin with heq | hin2
            · exact hc heq.symm
            · exact ih.2 p (List.mem_cons_self p ps) hin2
          · exact ih.2 piece (List.mem_cons_of_mem p hmem)

theorem humanLoop_ge_GB (x : ℚ) (h : (1024 : ℚ) ^ 3 ≤ x) :
    humanLoop ["KB", "MB", "GB"] x = some (withUnit (format2 (x / 1024 / 1024)) "GB") := by
  have h1 : ¬(x < 1024 ∨ ("KB" : String) = "GB") := by
    rintro (hlt | hs)
    · nlinarith
    · exact absurd hs (by decide)
  have h2 : ¬(x / 1024 < 1024 ∨ ("MB" : String) = "GB") := by
    rintro (hlt | hs)
    · rw [div_lt_iff₀ (by norm_num : (0 : ℚ) < 1024)] at hlt
      nlinarith
    · exact absurd hs (by decide)
  simp only [humanLoop]
  rw [if_neg h1, if_neg h2]
  simp

/-! The claim theorems. -/

/-- C1: for every directory tree and every exclusion set (the defaults
unioned with user patterns are one instance), no discovered file has a
basename in the exclusion set and no directory strictly below the source
root on the path to a discovered file has a basename in the exclusion set;
membership is exact string equality on single path components. -/
theorem discovered_no_excluded_component (excl src : List String) (d : Dir) :
    ∀ e ∈ walkDiscover excl src (PathTarget.dir d), ∀ c ∈ relTo src e.1, c ∉ excl := by
  intro e he c hc
  rcases discover_shape excl src d e he with ⟨q, -, hq, he1⟩
  rw [he1, relTo, List.drop_left] at hc
  exact hq c hc

/-- Witness for C1: in a tree holding a.txt and sub/x.js, the discovered
entry r/sub/x.js certifies that neither "sub" nor "x.js" is in the default
exclusion set. -/
theorem discovered_no_excluded_component_w : ("x.js" : String) ∉ defaultExcluded :=
  discovered_no_excluded_component defaultExcluded ["r"]
    (Dir.node [("a.txt", 10)] [("sub", Dir.node [("x.js", 5)] [])])
    (["r", "sub", "x.js"], 5) (by decide) "x.js" (by decide)

/-- C2: for every non-empty discovered file list over a well-formed tree
(sibling basenames distinct, as on a real filesystem), the archive entry
names are exactly the discovered paths made relative to the source root, in
discovery order, with equal length and no duplicates: a bijection. -/
theorem archive_entries_bijection (excl src : List String) (d : Dir) (hw : d.wf)
    (_hne : walkDiscover excl src (PathTarget.dir d) ≠ []) :
    writeEntries src (walkDiscover excl src (PathTarget.dir d))
        = (walkDiscover excl src (PathTarget.dir d)).map (fun e => relTo src e.1) ∧
    (writeEntries src (walkDiscover excl src (PathTarget.dir d))).length
        = (walkDiscover excl src (PathTarget.dir d)).length ∧
    (writeEntries src (walkDiscover excl src (PathTarget.dir d))).Nodup := by
  refine ⟨rfl, List.length_map _ _, ?_⟩
  have h1 : writeEntries src (walkDiscover excl src (PathTarget.dir d))
      = ((walkDiscover excl src (PathTarget.dir d)).map Prod.fst).map (relTo src) := by
    rw [writeEntries, List.map_map]
    rfl
  rw [h1]
  refine List.Nodup.map_on ?_ (discover_nodup excl src d hw)
  intro x hx y hy hxy
  rcases List.mem_map.mp hx with ⟨e, he, rfl⟩
  rcases List.mem_map.mp hy with ⟨e', he', rfl⟩
  rcases discover_shape excl src d e he with ⟨q, -, -, hs1⟩
  rcases discover_shape excl src d e' he' with ⟨q', -, -, hs1'⟩
  rw [hs1, hs1'] at hxy ⊢
  rw [relTo, relTo, List.drop_left, List.drop_left] at hxy
  rw [hxy]

/-- Witness for C2: a concrete two-level tree produces duplicate-free
archive entries. -/
theorem archive_entries_bijection_w :
    (writeEntries ["r"]
        (walkDiscover [".git"] ["r"]
          (PathTarget.dir (Dir.node [("a.txt", 10)] [("sub", Dir.node [("x.js", 5)] [])])))).Nodup := by
  have hwf : Dir.wf (Dir.node [("a.txt", 10)] [("sub", Dir.node [("x.js", 5)] [])]) := by
    refine .node (by decide) ?_
    intro s hs
    rw [List.mem_singleton] at hs
    subst hs
    refine .node (by decide) ?_
    intro x hx
    exact absurd hx (List.not_mem_nil x)
  exact (archive_entries_bijection [".git"] ["r"]
    (Dir.node [("a.txt", 10)] [("sub", Dir.node [("x.js", 5)] [])]) hwf (by decide)).2.2

/-- C3 (code divergence): the ratio expression is (1 - c/o)*100 as the
claim states (ratio 1000 250 = 75), but at original_bytes = 0 the code
divides by zero instead of reporting 0.0: compressionRatio 0 z is an error
(none), and a run over a source holding one empty file ends in the caught
ZeroDivisionError with exit code 1, after the archive was already
written. -/
theorem ratio_zero_division_bug :
    compressionRatio 1000 250 = some 75 ∧
    compressionRatio 0 0 = none ∧
    create_zip (PathTarget.dir (Dir.node [("empty.txt", 0)] [])) ["r"] "r" none [] true
        "20250101_120000" 78 = Outcome.statsError "r_20250101_120000.zip" ∧
    outcomeExitCode (Outcome.statsError "r_20250101_120000.zip") = 1 := by
  exact ⟨by norm_num [compressionRatio], by norm_num [compressionRatio], by decide, rfl⟩

/-- C4 counterexample: on a missing root, discovery does not fail with a
distinct error kind; it succeeds with the empty file list (os.walk swallows
the error), and the run ends exactly as it does for an existing empty
directory. -/
theorem missing_root_no_discovery_error_cx :
    walkDiscover defaultExcluded ["gone"] PathTarget.missing = [] ∧
    create_zip PathTarget.missing ["gone"] "gone" none [] true "20250101_120000" 0
        = Outcome.emptyExit ∧
    create_zip (PathTarget.dir (Dir.node [] [])) ["gone"] "gone" none [] true
        "20250101_120000" 0 = Outcome.emptyExit := by
  refine ⟨rfl, by decide, by decide⟩

/-- C4 as amended: for every root that is missing or is not a directory,
discovery yields the empty list and the run exits through the generic
no-files path with exit code 1; no distinct DiscoveryError kind exists in
the program. -/
theorem missing_root_generic_exit (excl src : List String) (srcBasename : String)
    (customName : Option String) (exclude : List String) (useTimestamp : Bool)
    (timestamp : String) (zipSize n : Nat) :
    walkDiscover excl src PathTarget.missing = [] ∧
    walkDiscover excl src (PathTarget.file n) = [] ∧
    create_zip PathTarget.missing src srcBasename customName exclude useTimestamp
        timestamp zipSize = Outcome.emptyExit ∧
    create_zip (PathTarget.file n) src srcBasename customName exclude useTimestamp
        timestamp zipSize = Outcome.emptyExit ∧
    outcomeExitCode Outcome.emptyExit = 1 := by
  refine ⟨rfl, rfl, ?_, ?_, rfl⟩
  · simp [create_zip, walkDiscover]
  · simp [create_zip, walkDiscover]

/-- C5 counterexample: a run interrupted by KeyboardInterrupt exits with
code 0, not a non-zero code: the claim is false on the code. -/
theorem interrupt_exit_code_cx : mainExitCode RunEvent.interrupted = 0 := rfl

/-- C5 as amended: user-requested cancellation terminates the process with
exit code 0, identical to the success exit code, not distinct from it. -/
theorem interrupt_exit_equals_success :
    mainExitCode RunEvent.interrupted
      = mainExitCode (RunEvent.completed (Outcome.success "a.zip" [] 0)) := rfl

/-- C6: whenever discovery yields zero eligible files, the run ends in the
empty exit with code 1 (non-zero), taken before the archive is opened, so
no destination file exists afterwards. -/
theorem empty_discovery_clean_exit (srcTarget : PathTarget) (src : List String)
    (srcBasename : String) (customName : Option String) (exclude : List String)
    (useTimestamp : Bool) (timestamp : String) (zipSize : Nat)
    (h : walkDiscover (defaultExcluded ++ exclude) src srcTarget = []) :
    create_zip srcTarget src srcBasename customName exclude useTimestamp timestamp zipSize
        = Outcome.emptyExit ∧
    outcomeExitCode (create_zip srcTarget src srcBasename customName exclude useTimestamp
        timestamp zipSize) ≠ 0 ∧
    createdArchive (create_zip srcTarget src srcBasename customName exclude useTimestamp
        timestamp zipSize) = none := by
  have hc : create_zip srcTarget src srcBasename customName exclude useTimestamp timestamp
      zipSize = Outcome.emptyExit := by
    simp [create_zip, h]
  refine ⟨hc, ?_, ?_⟩
  · rw [hc]
    simp [outcomeExitCode]
  · rw [hc]
    simp [createdArchive]

/-- Witness for C6: an existing but empty source directory. -/
theorem empty_discovery_clean_exit_w :
    create_zip (PathTarget.dir (Dir.node [] [])) ["r"] "r" none [] true "20250101_120000" 0
        = Outcome.emptyExit ∧
    outcomeExitCode (create_zip (PathTarget.dir (Dir.node [] [])) ["r"] "r" none [] true
        "20250101_120000" 0) ≠ 0 ∧
    createdArchive (create_zip (PathTarget.dir (Dir.node [] [])) ["r"] "r" none [] true
        "20250101_120000" 0) = none :=
  empty_discovery_clean_exit (PathTarget.dir (Dir.node [] [])) ["r"] "r" none [] true
    "20250101_120000" 0 (by decide)

/-- C7: human_size renders a count below 1024 as an integer number of
bytes; from 1024 up it divides by 1024 per unit and renders two decimal
places (shown here for the KB band and by the concrete KB and GB
examples). -/
theorem human_size_units :
    (∀ n : Nat, n < 1024 → human_size n = some (toString n ++ " B")) ∧
    (∀ n : Nat, 1024 ≤ n → (n : ℚ) / 1024 < 1024 →
      human_size n = some (withUnit (format2 ((n : ℚ) / 1024)) "KB")) ∧
    human_size 500 = some "500 B" ∧
    human_size 2048 = some "2.00 KB" ∧
    human_size 1073741824 = some "1.00 GB" := by
  refine ⟨?_, ?_, ?_, ?_, ?_⟩
  · intro n h
    rw [human_size, if_pos (by exact_mod_cast h)]
  · intro n h1 h2
    rw [human_size, if_neg (not_lt.2 (by exact_mod_cast h1))]
    simp only [humanLoop]
    rw [if_pos (Or.inl h2)]
  · norm_num [human_size, humanLoop, withUnit, format2, roundHalfEven, pad2]
    decide
  · norm_num [human_size, humanLoop, withUnit, format2, roundHalfEven, pad2]
    decide
  · norm_num [human_size, humanLoop, withUnit, format2, roundHalfEven, pad2]
    decide

/-- Witness for C7: both general bands applied at concrete counts. -/
theorem human_size_units_w :
    human_size 7 = some (toString 7 ++ " B") ∧
    human_size 1536 = some (withUnit (format2 ((1536 : ℚ) / 1024)) "KB") :=
  ⟨human_size_units.1 7 (by norm_num),
   human_size_units.2.1 1536 (by norm_num) (by norm_num)⟩

/-- C8 counterexample: with the explicit override "" (an explicitly given
base name) and the timestamp suppressed, the filename is not
base_name + ".zip" for that override: Python's `or` silently replaces the
empty override with the source directory's basename. -/
theorem zipFilename_empty_override_cx :
    zipFilename (some "") "proj" "20250101_120000" false = "proj.zip" ∧
    "proj.zip" ≠ "" ++ ".zip" := by
  constructor
  · simp [zipFilename]
  · decide

/-- C8 as amended: the filename is base_name_{timestamp}.zip when the
timestamp suffix is enabled (the default) and exactly base_name.zip when it
is suppressed; base_name is the explicit override when one is given and
non-empty, otherwise the source directory's basename (an empty override
falls back like a missing one). -/
theorem zipFilename_construction (srcBasename timestamp : String) :
    (zipFilename none srcBasename timestamp true
        = srcBasename ++ "_" ++ timestamp ++ ".zip") ∧
    (zipFilename none srcBasename timestamp false = srcBasename ++ ".zip") ∧
    (zipFilename (some "") srcBasename timestamp true
        = srcBasename ++ "_" ++ timestamp ++ ".zip") ∧
    (zipFilename (some "") srcBasename timestamp false = srcBasename ++ ".zip") ∧
    (∀ s : String, s ≠ "" →
      zipFilename (some s) srcBasename timestamp true = s ++ "_" ++ timestamp ++ ".zip" ∧
      zipFilename (some s) srcBasename timestamp false = s ++ ".zip") := by
  refine ⟨rfl, rfl, by simp [zipFilename], by simp [zipFilename], ?_⟩
  intro s hs
  constructor <;> simp [zipFilename, hs]

/-- Witness for C8: the non-empty override "proj" with the timestamp
suppressed yields exactly proj.zip. -/
theorem zipFilename_construction_w :
    zipFilename (some "proj") "src" "20250101_120000" false = "proj.zip" :=
  ((zipFilename_construction "src" "20250101_120000").2.2.2.2 "proj" (by decide)).2

/-- C9: the -e string is split exactly at commas with no whitespace
trimming (rejoining the pieces with commas restores the original character
sequence and no piece contains a comma); the empty string contributes no
patterns; "a, b" stores the pattern " b" with its space, and a file whose
basename is "b" is still discovered under those patterns. -/
theorem exclude_split_no_trim :
    parseExclude "" = [] ∧
    (∀ s : String, s ≠ "" →
      joinComma ((parseExclude s).map String.data) = s.data ∧
      ∀ p ∈ parseExclude s, ',' ∉ p.data) ∧
    parseExclude "a, b" = ["a", " b"] ∧
    walkDiscover (defaultExcluded ++ parseExclude "a, b") ["r"]
        (PathTarget.dir (Dir.node [("b", 3)] [])) = [(["r", "b"], 3)] := by
  refine ⟨rfl, ?_, by decide, by decide⟩
  intro s hs
  rw [parseExclude, if_neg hs, splitComma]
  constructor
  · rw [List.map_map]
    have hid : (String.data ∘ String.mk) = id := rfl
    rw [hid, List.map_id]
    exact (splitCommaAux_join s.data).1
  · intro p hp
    rcases List.mem_map.mp hp with ⟨cs, hcs, rfl⟩
    exact (splitCommaAux_join s.data).2 cs hcs

/-- Witness for C9: the splitting property applied to a concrete pattern
string with an empty piece. -/
theorem exclude_split_no_trim_w :
    joinComma ((parseExclude "x,,y").map String.data) = ("x,,y" : String).data ∧
    ∀ p ∈ parseExclude "x,,y", ',' ∉ p.data :=
  exclude_split_no_trim.2.1 "x,,y" (by decide)

/-- C10: human_size is total (the loop always returns a string); any count
of 1024 GB or more is still rendered in the GB unit with two decimal
places, e.g. 2^41 bytes is "2048.00 GB". -/
theorem human_size_total :
    (∀ n : Nat, (human_size n).isSome = true) ∧
    (∀ n : Nat, 1024 ^ 4 ≤ n →
      human_size n = some (withUnit (format2 ((n : ℚ) / 1024 ^ 3)) "GB")) ∧
    human_size (2 ^ 41) = some "2048.00 GB" := by
  refine ⟨?_, ?_, ?_⟩
  · intro n
    simp only [human_size, humanLoop]
    split_ifs <;> simp_all
  · intro n h
    have hn : (1024 : ℚ) ^ 4 ≤ (n : ℚ) := by exact_mod_cast h
    rw [human_size, if_neg (not_lt.2 (by nlinarith))]
    rw [humanLoop_ge_GB ((n : ℚ) / 1024)
      (by rw [le_div_iff₀ (by norm_num : (0 : ℚ) < 1024)]; nlinarith)]
    rw [div_div, div_div]
    norm_num
  · norm_num [human_size, humanLoop, withUnit, format2, roundHalfEven, pad2]
    decide

/-- Witness for C10: the GB band applied at 2^40 bytes (1024 GB). -/
theorem human_size_total_w :
    human_size (2 ^ 40) = some (withUnit (format2 ((2 ^ 40 : ℚ) / 1024 ^ 3)) "GB") := by
  have h := human_size_total.2.1 (2 ^ 40) (by norm_num)
  simpa using h

end Zipper
